import Mathlib

/-!
# Verification of the S/Kademlia discovery core of `noise`

Shallow embedding of the repository's discovery plugin (`discovery` package),
the base connection adapter (`base/connection.go`) and the peer-identity
primitives pinned by `peer/identity_test.go`, together with proofs of the
behavioural claims about them.

Bytes are modelled as `Nat` (values `< 256` by construction of every producer),
byte strings as `List Nat`, and 64-bit machine words as `Nat` reduced modulo
`2 ^ 64` at every operation that can overflow.
-/

set_option maxRecDepth 1000000
set_option maxHeartbeats 2000000

namespace Noise

/-! ## Byte and bit primitives -/

/-- The eight bits of a byte, most significant first. -/
def byteBitsMSB (b : Nat) : List Bool :=
  (List.range 8).map (fun i => b.testBit (7 - i))

/-- All bits of a byte string, most significant bit of the first byte first. -/
def bitsMSB (l : List Nat) : List Bool :=
  l.flatMap byteBitsMSB

/-- Modelled from the spec: `peer/identity.go` is not under `src/`, only its
tests.  `leading_zero_bits(bytes)` counts MSB-first zero bits; when all bits
are zero it returns `8·len − 1` (the clamp keeping bucket indices in range). -/
def leadingZeroBits (l : List Nat) : Nat :=
  if (bitsMSB l).all (fun b => !b) then 8 * l.length - 1
  else ((bitsMSB l).takeWhile (fun b => !b)).length

/-- Little-endian 64-bit word from (up to) eight bytes. -/
def wordOfBytesLE (chunk : List Nat) : Nat :=
  chunk.foldr (fun b acc => b + 256 * acc) 0

/-- The eight little-endian bytes of a 64-bit word. -/
def bytesOfWordLE (w : Nat) : List Nat :=
  (List.range 8).map (fun i => w >>> (8 * i) % 256)

/-- Split a list into chunks of `n` elements; the last chunk may be shorter.
Implemented as a fold so that it reduces structurally. -/
def chunks (n : Nat) (l : List α) : List (List α) :=
  let st := l.foldl
    (fun (st : List (List α) × List α) (x : α) =>
      let cur := st.2 ++ [x]
      if cur.length = n then (st.1 ++ [cur], []) else (st.1, cur))
    ([], [])
  if st.2.isEmpty then st.1 else st.1 ++ [st.2]

/-! ## BLAKE2b-256

The repository hashes public keys with BLAKE2b-256
(`crypto/blake2b`, a thin wrapper over the reference algorithm; the wrapper is
not under `src/` but the digest is pinned byte-for-byte by
`peer/identity_test.go` and by the spec's scenario 1). -/

def blakeIV : List Nat :=
  [0x6a09e667f3bcc908, 0xbb67ae8584caa73b, 0x3c6ef372fe94f82b, 0xa54ff53a5f1d36f1,
   0x510e527fade682d1, 0x9b05688c2b3e6c1f, 0x1f83d9abfb41bd6b, 0x5be0cd19137e2179]

def blakeSigma : List (List Nat) :=
  [[0, 1, 2, 3, 4, 5, 6, 7, 8, 9, 10, 11, 12, 13, 14, 15],
   [14, 10, 4, 8, 9, 15, 13, 6, 1, 12, 0, 2, 11, 7, 5, 3],
   [11, 8, 12, 0, 5, 2, 15, 13, 10, 14, 3, 6, 7, 1, 9, 4],
   [7, 9, 3, 1, 13, 12, 11, 14, 2, 6, 5, 10, 4, 0, 15, 8],
   [9, 0, 5, 7, 2, 4, 10, 15, 14, 1, 11, 12, 6, 8, 3, 13],
   [2, 12, 6, 10, 0, 11, 8, 3, 4, 13, 7, 5, 15, 14, 1, 9],
   [12, 5, 1, 15, 14, 13, 4, 10, 0, 7, 6, 3, 9, 2, 8, 11],
   [13, 11, 7, 14, 12, 1, 3, 9, 5, 0, 15, 4, 8, 6, 2, 10],
   [6, 15, 14, 9, 11, 3, 0, 8, 12, 2, 13, 7, 1, 4, 10, 5],
   [10, 2, 8, 4, 7, 6, 1, 5, 15, 11, 9, 14, 3, 12, 13, 0]]

/-- 64-bit rotate right. -/
def rotr64 (x n : Nat) : Nat :=
  ((x >>> n) ||| (x <<< (64 - n))) % 2 ^ 64

/-- The BLAKE2b `G` mixing function acting on working-vector indices
`a b c d` with message words `x y`. -/
def blakeG (v : List Nat) (a b c d x y : Nat) : List Nat :=
  let va := (v.getD a 0 + v.getD b 0 + x) % 2 ^ 64
  let vd := rotr64 (Nat.xor (v.getD d 0) va) 32
  let vc := (v.getD c 0 + vd) % 2 ^ 64
  let vb := rotr64 (Nat.xor (v.getD b 0) vc) 24
  let va' := (va + vb + y) % 2 ^ 64
  let vd' := rotr64 (Nat.xor vd va') 16
  let vc' := (vc + vd') % 2 ^ 64
  let vb' := rotr64 (Nat.xor vb vc') 63
  ((((v.set a va').set b vb').set c vc').set d vd')

/-- One BLAKE2b round with message words `m` and sigma row `s`. -/
def blakeRound (m : List Nat) (v : List Nat) (s : List Nat) : List Nat :=
  let mi := fun i => m.getD (s.getD i 0) 0
  let v := blakeG v 0 4 8 12 (mi 0) (mi 1)
  let v := blakeG v 1 5 9 13 (mi 2) (mi 3)
  let v := blakeG v 2 6 10 14 (mi 4) (mi 5)
  let v := blakeG v 3 7 11 15 (mi 6) (mi 7)
  let v := blakeG v 0 5 10 15 (mi 8) (mi 9)
  let v := blakeG v 1 6 11 12 (mi 10) (mi 11)
  let v := blakeG v 2 7 8 13 (mi 12) (mi 13)
  let v := blakeG v 3 4 9 14 (mi 14) (mi 15)
  v

/-- The BLAKE2b compression function: chain value `h` (8 words), message block
`m` (16 words), byte counter `t`, finalization flag `last`. -/
def blakeCompress (h : List Nat) (m : List Nat) (t : Nat) (last : Bool) : List Nat :=
  let v := h ++ blakeIV
  let v := v.set 12 (Nat.xor (v.getD 12 0) (t % 2 ^ 64))
  let v := v.set 13 (Nat.xor (v.getD 13 0) (t / 2 ^ 64 % 2 ^ 64))
  let v := if last then v.set 14 (Nat.xor (v.getD 14 0) (2 ^ 64 - 1)) else v
  let v := (List.range 12).foldl (fun v r => blakeRound m v (blakeSigma.getD (r % 10) [])) v
  (List.range 8).map (fun i => Nat.xor (Nat.xor (h.getD i 0) (v.getD i 0)) (v.getD (i + 8) 0))

/-- Sequentially compress the 128-byte blocks of a message of total length
`msgLen`, starting `offset` bytes in. -/
def blakeProcess (h : List Nat) (blocks : List (List Nat)) (msgLen offset : Nat) : List Nat :=
  match blocks with
  | [] => h
  | [b] => blakeCompress h ((chunks 8 b).map wordOfBytesLE) msgLen true
  | b :: rest =>
      blakeProcess (blakeCompress h ((chunks 8 b).map wordOfBytesLE)
        (offset + 128) false) rest msgLen (offset + 128)

/-- BLAKE2b-256 (unkeyed) of a byte string, as 32 bytes. -/
def blake2b256 (msg : List Nat) : List Nat :=
  let h0 := blakeIV.set 0 (Nat.xor (blakeIV.getD 0 0) 0x01010020)
  let pad := if msg.isEmpty then 128 else (128 - msg.length % 128) % 128
  let blocks := chunks 128 (msg ++ List.replicate pad 0)
  (blakeProcess h0 blocks msg.length 0).take 4 |>.flatMap bytesOfWordLE

/-! ## Peer identity (`peer` package)

`peer/identity.go` itself is not under `src/`; only `peer/identity_test.go`
is.  The definitions below are modelled from the spec (§4.2–§4.3), with the
concrete behaviour pinned by the test file. -/

/-- A peer identity: transport address, raw public key, and the hashed id. -/
structure ID where
  Address : String
  PublicKey : List Nat
  Id : List Nat
deriving DecidableEq, Repr

/-- Modelled from the spec: `peer/identity.go` is missing from `src/`.
`PrefixLen` is `leading_zero_bits` applied to the identity's `Id` bytes. -/
def ID.PrefixLen (id : ID) : Nat :=
  leadingZeroBits id.Id

/-- Bytewise XOR of two equal-length byte strings. -/
def xorBytes (a b : List Nat) : List Nat :=
  List.zipWith Nat.xor a b

/-- Mirror of `binary.LittleEndian.PutUint32`: the four little-endian bytes of
a 32-bit value (as used by `TestPrefixLen`). -/
def putUint32LE (v : Nat) : List Nat :=
  [v % 256, v >>> 8 % 256, v >>> 16 % 256, v >>> 24 % 256]

/-- Modelled from the spec: `peer/identity.go` is missing from `src/`.  The
static S/Kademlia cryptopuzzle accepts a public key whose hashed node id,
hashed once more, has at least `c1` leading zero bits — the test vectors in
`peer/identity_test.go` pin the double hash (`H(H(pk))`): at the first test
key `H(H(pk))` has exactly 8 leading zero bits and at the second exactly 16,
matching every expected verdict, while the single hash `H(pk)` has 0 leading
zero bits at both keys. -/
def isValidKeyPair (publicKey : List Nat) (c1 : Nat) : Bool :=
  let nodeID := blake2b256 publicKey
  decide (c1 ≤ leadingZeroBits (blake2b256 nodeID))

/-- Modelled from the spec: the peer-admission check of the discovery plugin
(not under `src/`).  A peer is valid iff its public key passes the static
puzzle and its `Id` equals the hash of its public key. -/
def IsPeerValid (c1 : Nat) (peer : ID) : Bool :=
  isValidKeyPair peer.PublicKey c1 && peer.Id == blake2b256 peer.PublicKey

/-! ## Routing table (`discovery` package)

Modelled from the spec (§3, §4.5): the k-bucket table sources themselves are
not under `src/`; `src/unnamed/part_000` only calls them. -/

/-- Modelled from the spec: `K` (bucket size), default 16. -/
def BucketSize : Nat := 16

/-- Modelled from the spec: 256 k-buckets plus the owning node's identity. -/
structure RoutingTable where
  self : ID
  buckets : List (List ID)
deriving DecidableEq, Repr

/-- Modelled from the spec: `create(self)` initializes 256 empty buckets. -/
def CreateRoutingTable (self : ID) : RoutingTable :=
  ⟨self, List.replicate 256 []⟩

/-- Modelled from the spec: k-bucket `update` — move an already-present id to
the front, push a new id to the front of a non-full bucket, and drop the new
peer when the bucket is full (the documented simple variant). -/
def bucketUpdate (b : List ID) (peer : ID) : List ID :=
  if b.any (fun q => q.Id == peer.Id) then
    peer :: b.filter (fun q => !(q.Id == peer.Id))
  else if b.length < BucketSize then
    peer :: b
  else b

/-- Modelled from the spec: the bucket index of `peer` is
`plen(d(self, peer))`. -/
def RoutingTable.bucketID (t : RoutingTable) (peer : ID) : Nat :=
  leadingZeroBits (xorBytes t.self.Id peer.Id)

/-- Modelled from the spec: `update(peer)` — a no-op on `self`, otherwise a
k-bucket update in the bucket indexed by the distance prefix length. -/
def RoutingTable.Update (t : RoutingTable) (peer : ID) : RoutingTable :=
  if peer.Id == t.self.Id then t
  else
    let i := t.bucketID peer
    { t with buckets := t.buckets.set i (bucketUpdate (t.buckets.getD i []) peer) }

/-- Modelled from the spec: membership by `Id` across all buckets. -/
def RoutingTable.PeerExists (t : RoutingTable) (peer : ID) : Bool :=
  t.buckets.any (fun b => b.any (fun q => q.Id == peer.Id))

/-- Modelled from the spec: `remove_peer` removes by `Id`; a no-op when the
peer is absent. -/
def RoutingTable.RemovePeer (t : RoutingTable) (peer : ID) : RoutingTable :=
  { t with buckets := t.buckets.map (fun b => b.filter (fun q => !(q.Id == peer.Id))) }

/-- Strict lexicographic order on byte strings. -/
def bytesLt : List Nat → List Nat → Bool
  | [], [] => false
  | [], _ :: _ => true
  | _ :: _, [] => false
  | a :: as, b :: bs => if a < b then true else if b < a then false else bytesLt as bs

/-- Strict ordering of peers by XOR distance to `target`, ties broken by
lexicographic `Id` order. -/
def distLt (target : List Nat) (p q : ID) : Bool :=
  let dp := xorBytes target p.Id
  let dq := xorBytes target q.Id
  if bytesLt dp dq then true
  else if bytesLt dq dp then false
  else bytesLt p.Id q.Id

/-- Insert into a list sorted ascending by `distLt target`. -/
def insertByDist (target : List Nat) (x : ID) : List ID → List ID
  | [] => [x]
  | y :: ys => if distLt target y x then y :: insertByDist target x ys else x :: y :: ys

/-- Insertion sort ascending by XOR distance to `target`. -/
def sortByDist (target : List Nat) (l : List ID) : List ID :=
  l.foldr (insertByDist target) []

/-- Bucket indices in expanding-ring order around `center`:
`center, center−1, center+1, center−2, center+2, …`, clipped to
`[0, total)`. -/
def ringOrder (center total : Nat) : List Nat :=
  center :: (List.range total).flatMap (fun j =>
    (if j + 1 ≤ center then [center - (j + 1)] else []) ++
    (if center + (j + 1) < total then [center + (j + 1)] else []))

/-- Walk buckets in `order`, concatenating their contents until at least
`need` candidates have been collected or all buckets are exhausted. -/
def collectClosest (buckets : List (List ID)) (order : List Nat) (need : Nat) : List ID :=
  match order with
  | [] => []
  | i :: rest =>
      let b := buckets.getD i []
      if need ≤ b.length then b
      else b ++ collectClosest buckets rest (need - b.length)

/-- Modelled from the spec: `find_closest_peers(target, n)` starts at the
bucket indexed by `plen(d(self, target))`, expands outward collecting
candidates until `n` are gathered or the buckets are exhausted, sorts the
candidates by XOR distance to the target (ties by lexicographic id), and
returns the first `n`. -/
def RoutingTable.FindClosestPeers (t : RoutingTable) (target : ID) (count : Nat) : List ID :=
  let center := leadingZeroBits (xorBytes target.Id t.self.Id)
  let candidates := collectClosest t.buckets (ringOrder center t.buckets.length) count
  (sortByDist target.Id candidates).take count

/-! ## Discovery plugin (`src/unnamed/part_000`) -/

/-- The protobuf message kinds the discovery handler dispatches on. -/
inductive Message where
  | Ping : Message
  | Pong : Message
  | LookupNodeRequest (target : ID) : Message
  | LookupNodeResponse (peers : List ID) : Message
deriving DecidableEq, Repr

/-- A message sent on the inbound connection via `ctx.Reply`. -/
inductive Sent where
  | reply (msg : Message) : Sent
deriving DecidableEq, Repr

/-- The discovery plugin's configuration flags and routing table. -/
structure Plugin where
  DisablePing : Bool
  DisablePong : Bool
  DisableLookup : Bool
  EnforceSkademliaNodeIDs : Bool
  Routes : RoutingTable
deriving DecidableEq, Repr

/-- The error returned when admission enforcement rejects a sender. -/
def invalidPeerErr : String :=
  "Sender is not a valid node ID"

/-- `Plugin.Receive` from `src/unnamed/part_000`, lines 37–99.  `c1` is the
static-puzzle difficulty used by the admission check; `findNodeResult` stands
for the peers returned by the network-driven `FindNode` call in the `Pong`
branch (its iterative lookup is transport-bound and is treated as an oracle).
The transport's `Reply` is modelled as succeeding; sent replies are returned
in order. -/
def Plugin.Receive (c1 : Nat) (state : Plugin) (sender : ID) (msg : Message)
    (findNodeResult : List ID) : Plugin × Option String × List Sent :=
  if state.EnforceSkademliaNodeIDs && !IsPeerValid c1 sender then
    (state, some invalidPeerErr, [])
  else
    -- Update routing for every incoming message.
    let state := { state with Routes := state.Routes.Update sender }
    match msg with
    | .Ping =>
        if state.DisablePing then (state, none, [])
        else (state, none, [.reply .Pong])
    | .Pong =>
        if state.DisablePong then (state, none, [])
        else
          -- Update routing table w/ closest peers to self.
          ({ state with
              Routes := findNodeResult.foldl RoutingTable.Update state.Routes },
           none, [])
    | .LookupNodeRequest target =>
        if state.DisableLookup then (state, none, [])
        else
          -- Respond back with closest peers to a provided target.
          let peers := (state.Routes.FindClosestPeers target BucketSize).foldl
            (fun acc p => acc ++ [p]) []
          (state, none, [.reply (.LookupNodeResponse peers)])
    | .LookupNodeResponse _ => (state, none, [])

/-- `Plugin.PeerDisconnect` from `src/unnamed/part_000`, lines 105–117:
delete the peer if it is in the routing table; `clientID = none` models a
client whose `ID` pointer is nil. -/
def Plugin.PeerDisconnect (state : Plugin) (clientID : Option ID) : Plugin :=
  match clientID with
  | none => state
  | some peer =>
      if state.Routes.PeerExists peer then
        { state with Routes := state.Routes.RemovePeer peer }
      else state

/-! ## Base connection adapter (`src/base/connection.go`) -/

/-- `MaxPublicVisibleAddressCandidates` (`src/base/connection.go`, line 11). -/
def MaxPublicVisibleAddressCandidates : Nat := 8

/-- An `(address, count)` tally entry (`PubliclyVisibleAddress`). -/
structure PubliclyVisibleAddress where
  address : String
  count : Nat
deriving DecidableEq, Repr

/-- The id→address map of the adapter (`sync.Map` keyed by the raw id bytes),
modelled as an association list: `Store` replaces the binding of a present key
and otherwise appends a fresh one. -/
def mapStore : List (List Nat × String) → List Nat → String → List (List Nat × String)
  | [], id, addr => [(id, addr)]
  | kv :: rest, id, addr =>
      if kv.1 == id then (id, addr) :: rest else kv :: mapStore rest id addr

/-- `ConnectionAdapter.MapIDToAddress` (lines 41–43): store the binding. -/
def MapIDToAddress (m : List (List Nat × String)) (id : List Nat) (addr : String) :
    List (List Nat × String) :=
  mapStore m id addr

/-- `ConnectionAdapter.lookupAddressByID` (lines 45–50): a load from the map,
`not found` when the id was never stored. -/
def lookupAddressByID (m : List (List Nat × String)) (id : List Nat) :
    Except String String :=
  match m.find? (fun kv => kv.1 == id) with
  | some kv => .ok kv.2
  | none => .error "not found"

/-- `ConnectionAdapter.GetConnectionIDs` (lines 140–149): collect every key of
the id→address map. -/
def GetConnectionIDs (m : List (List Nat × String)) : List (List Nat) :=
  m.foldl (fun results kv => results ++ [kv.1]) []

/-- The last address a sequence of store operations binds to `id`, if any
(specification-side characterization used to state C10). -/
def lastStore? : List (List Nat × String) → List Nat → Option String
  | [], _ => none
  | (k, a) :: rest, id =>
      match lastStore? rest id with
      | some b => some b
      | none => if k == id then some a else none

/-- `ConnectionAdapter.EstablishActively` (lines 52–64): resolve the remote id
through the map, propagating a lookup miss; otherwise dial exactly the mapped
address.  `dialer` is the injected `Dialer`; the second component of the
result records the addresses actually dialed. -/
def EstablishActively (m : List (List Nat × String)) (remote : List Nat)
    (dialer : String → Except String Unit) : Except String Unit × List String :=
  match lookupAddressByID m remote with
  | .error e => (.error e, [])
  | .ok remoteAddr =>
      match dialer remoteAddr with
      | .error e => (.error e, [remoteAddr])
      | .ok _ => (.ok (), [remoteAddr])

/-- One observation made by an iteration of the accept loop of
`EstablishPassively` (lines 66–93): whether the cancellation signal is
pending, what `listener.Accept` yields, and whether `NewMessageAdapter`
succeeds on the accepted connection. -/
structure AcceptEvent where
  cancelled : Bool
  accept : Except String Nat
  adapterOk : Bool
deriving Repr

/-- The accept loop of `EstablishPassively` over a finite trace of
per-iteration observations.  Each iteration first polls the cancellation
channel: when it fires the goroutine returns and the deferred `close(ch)`
runs (`closed = true`).  An `Accept` or adapter-creation error is logged and
the loop continues.  An exhausted trace leaves the loop still running
(`closed = false`).  The first component lists the adapters sent on `ch`
(identified by the accepted connection's label). -/
def acceptLoop : List AcceptEvent → List Nat × Bool
  | [] => ([], false)
  | ev :: rest =>
      if ev.cancelled then ([], true)
      else
        match ev.accept with
        | .error _ => acceptLoop rest
        | .ok conn =>
            if ev.adapterOk then
              (conn :: (acceptLoop rest).1, (acceptLoop rest).2)
            else acceptLoop rest

/-- The bubble-up loop of `updatePubliclyVisibleAddress` (lines 110–121):
the just-incremented entry `x` swaps leftward past entries with strictly
smaller counts; `revPre` is the reversed prefix in front of `x` and `suf` the
suffix behind it. -/
def pvaBubble (revPre : List PubliclyVisibleAddress) (x : PubliclyVisibleAddress)
    (suf : List PubliclyVisibleAddress) : List PubliclyVisibleAddress :=
  match revPre with
  | [] => x :: suf
  | p :: revPre' =>
      if p.count < x.count then pvaBubble revPre' x (p :: suf)
      else (p :: revPre').reverse ++ x :: suf

/-- The search loop of `updatePubliclyVisibleAddress` (lines 108–125): find
the first entry carrying `address`, increment its count and bubble it up;
`none` when no entry matches. -/
def pvaScan (address : String) (revPre : List PubliclyVisibleAddress) :
    List PubliclyVisibleAddress → Option (List PubliclyVisibleAddress)
  | [] => none
  | p :: rest =>
      if p.address == address then
        some (pvaBubble revPre { p with count := p.count + 1 } rest)
      else pvaScan address (p :: revPre) rest

/-- `ConnectionAdapter.updatePubliclyVisibleAddress` (lines 105–138):
increment an existing entry and bubble it up past smaller counts; otherwise
truncate a full list to seven entries and append the new address with
count 1. -/
def updatePubliclyVisibleAddress (l : List PubliclyVisibleAddress) (address : String) :
    List PubliclyVisibleAddress :=
  match pvaScan address [] l with
  | some l' => l'
  | none =>
      let l :=
        if l.length > MaxPublicVisibleAddressCandidates - 1 then
          l.take (MaxPublicVisibleAddressCandidates - 1)
        else l
      -- always keep the last received publicly visible address in storage
      -- so it will always have a chance of being preferred.
      l ++ [{ address := address, count := 1 }]

/-- Well-formedness of the publicly-visible-address tally: at most eight
entries, counts non-increasing from front to back, every count positive. -/
def PVAWellFormed (l : List PubliclyVisibleAddress) : Prop :=
  l.length ≤ MaxPublicVisibleAddressCandidates ∧
  List.Pairwise (fun a b => b.count ≤ a.count) l ∧
  ∀ p ∈ l, 1 ≤ p.count

/-! ## Test vectors (`src/peer/identity_test.go`) -/

/-- The ed25519 public key derived from the first private key of
`TestIsValidKeyPair` (the trailing 32 bytes of the 64-byte private key,
hex `17246e17…65a988`). -/
def testPublicKey1 : List Nat :=
  [23, 36, 110, 23, 235, 58, 166, 211, 238, 208, 21, 0, 68, 212, 38, 232,
   153, 82, 86, 101, 184, 101, 116, 241, 29, 188, 241, 80, 172, 101, 169, 136]

/-- The ed25519 public key derived from the second private key of
`TestIsValidKeyPair` (hex `8e8b6a97…909263`). -/
def testPublicKey2 : List Nat :=
  [142, 139, 106, 151, 85, 19, 66, 253, 112, 236, 3, 190, 168, 186, 229, 176,
   91, 197, 220, 15, 84, 178, 114, 29, 255, 118, 240, 111, 171, 144, 146, 99]

/-! ## Concrete instances used by the witnesses -/

/-- A local node identity. -/
def wSelf : ID := ⟨"localhost:12345", [], [0, 0, 0, 0]⟩

/-- A remote peer. -/
def wSender : ID := ⟨"sender:1", [], [0, 0, 0, 9]⟩

/-- A lookup target. -/
def wTarget : ID := ⟨"target:1", [], [0, 0, 0, 8]⟩

/-- A sender whose empty `Id` cannot equal any BLAKE2b-256 digest. -/
def wBadSender : ID := ⟨"bad:1", [], []⟩

/-- A plugin with every option at its default. -/
def wPluginOpen : Plugin := ⟨false, false, false, false, CreateRoutingTable wSelf⟩

/-- A plugin with the three disable flags set. -/
def wPluginFlags : Plugin := ⟨true, true, true, false, CreateRoutingTable wSelf⟩

/-- A plugin enforcing S/Kademlia node ids. -/
def wPluginEnforce : Plugin := ⟨false, false, false, true, CreateRoutingTable wSelf⟩

/-- A one-entry id→address map. -/
def wMap : List (List Nat × String) := [([1], "addr:1")]

/-- A dialer that always succeeds. -/
def wDialOk : String → Except String Unit := fun _ => .ok ()

/-- An accept-loop iteration observing an `Accept` failure. -/
def wAcceptErr : AcceptEvent := ⟨false, .error "boom", true⟩

/-- A two-entry well-formed address tally. -/
def wPVA : List PubliclyVisibleAddress := [⟨"a", 2⟩, ⟨"b", 1⟩]

/-! ## Theorems -/

/-- `leadingZeroBits` on a byte string with at least one set bit is the
length of the maximal all-zero MSB-first bit prefix. -/
theorem leadingZeroBits_of_not_all_zero {l : List Nat}
    (h : ¬ ∀ b ∈ bitsMSB l, b = false) :
    leadingZeroBits l = ((bitsMSB l).takeWhile (fun b => !b)).length := by
  rw [leadingZeroBits, if_neg]
  intro hall
  exact h (by simpa using List.all_eq_true.mp hall)

/-- `leadingZeroBits` on an all-zero byte string is `8·len − 1`. -/
theorem leadingZeroBits_of_all_zero {l : List Nat}
    (h : ∀ b ∈ bitsMSB l, b = false) :
    leadingZeroBits l = 8 * l.length - 1 := by
  rw [leadingZeroBits, if_pos]
  exact List.all_eq_true.mpr (by simpa using h)

/-- C6 (confirmed): `PrefixLen` counts MSB-first leading zero bits of the
`Id` bytes, returns `8·len − 1` instead of `8·len` when every bit is zero,
and on ids that little-endian-encode the 32-bit values `2^k` it returns the
documented table `1→7, 2→6, 4→5, 8→4, 16→3, 32→2, 64→1`. -/
theorem claim_C6_prefixLen :
    (∀ id : ID, (¬ ∀ b ∈ bitsMSB id.Id, b = false) →
        id.PrefixLen = ((bitsMSB id.Id).takeWhile (fun b => !b)).length) ∧
    (∀ id : ID, (∀ b ∈ bitsMSB id.Id, b = false) →
        id.PrefixLen = 8 * id.Id.length - 1) ∧
    (∀ a pk, ID.PrefixLen ⟨a, pk, putUint32LE 1⟩ = 7 ∧
        ID.PrefixLen ⟨a, pk, putUint32LE 2⟩ = 6 ∧
        ID.PrefixLen ⟨a, pk, putUint32LE 4⟩ = 5 ∧
        ID.PrefixLen ⟨a, pk, putUint32LE 8⟩ = 4 ∧
        ID.PrefixLen ⟨a, pk, putUint32LE 16⟩ = 3 ∧
        ID.PrefixLen ⟨a, pk, putUint32LE 32⟩ = 2 ∧
        ID.PrefixLen ⟨a, pk, putUint32LE 64⟩ = 1) :=
  ⟨fun _ h => leadingZeroBits_of_not_all_zero h,
   fun _ h => leadingZeroBits_of_all_zero h,
   fun _ _ =>
    ⟨(by decide : leadingZeroBits (putUint32LE 1) = 7),
     (by decide : leadingZeroBits (putUint32LE 2) = 6),
     (by decide : leadingZeroBits (putUint32LE 4) = 5),
     (by decide : leadingZeroBits (putUint32LE 8) = 4),
     (by decide : leadingZeroBits (putUint32LE 16) = 3),
     (by decide : leadingZeroBits (putUint32LE 32) = 2),
     (by decide : leadingZeroBits (putUint32LE 64) = 1)⟩⟩

/-- Witness for C6 at a concrete identity: the id bytes `[1, 0, 0, 0]` are
not all zero and the prefix length is the zero-bit count, 7. -/
theorem claim_C6_witness :
    (¬ ∀ b ∈ bitsMSB (putUint32LE 1), b = false) ∧
    ID.PrefixLen ⟨"localhost:12345", [], putUint32LE 1⟩ =
      ((bitsMSB (putUint32LE 1)).takeWhile (fun b => !b)).length :=
  ⟨by decide, claim_C6_prefixLen.1 ⟨"localhost:12345", [], putUint32LE 1⟩ (by decide)⟩

/-- The double hash of the first test public key has exactly 8 leading zero
bits (kernel computation of BLAKE2b-256). -/
theorem lzDoubleHash_testKey1 :
    leadingZeroBits (blake2b256 (blake2b256 testPublicKey1)) = 8 := by decide

/-- The double hash of the second test public key has exactly 16 leading zero
bits. -/
theorem lzDoubleHash_testKey2 :
    leadingZeroBits (blake2b256 (blake2b256 testPublicKey2)) = 16 := by decide

/-- The single hash of the first test public key has no leading zero bit. -/
theorem lzSingleHash_testKey1 :
    leadingZeroBits (blake2b256 testPublicKey1) = 0 := by decide

/-- C5 (counterexample): at the first test public key and `C1 = 8` the
claimed equivalence with the single hash fails — `isValidKeyPair` accepts
(the test file asserts it does) while `H(pk)` has 0 leading zero bits. -/
theorem claim_C5_counterexample :
    ¬ (isValidKeyPair testPublicKey1 8 = true ↔
        8 ≤ leadingZeroBits (blake2b256 testPublicKey1)) := by
  have h1 : isValidKeyPair testPublicKey1 8 = true := by
    simp [isValidKeyPair, lzDoubleHash_testKey1]
  intro h
  have h2 := h.mp h1
  rw [lzSingleHash_testKey1] at h2
  omega

/-- Each 64-bit word serializes to eight bytes. -/
theorem length_flatMap_bytesOfWordLE (l : List Nat) :
    (l.flatMap bytesOfWordLE).length = 8 * l.length := by
  induction l with
  | nil => simp
  | cons w ws ih => simp [ih, bytesOfWordLE]; omega

/-- The compression function returns an 8-word chain value. -/
theorem blakeCompress_length (h m : List Nat) (t : Nat) (last : Bool) :
    (blakeCompress h m t last).length = 8 := by
  simp [blakeCompress]

/-- Processing blocks preserves the 8-word chain value. -/
theorem blakeProcess_length :
    ∀ (blocks : List (List Nat)) (h : List Nat) (msgLen offset : Nat),
      h.length = 8 → (blakeProcess h blocks msgLen offset).length = 8 := by
  intro blocks
  induction blocks with
  | nil => intro h msgLen offset hh; simpa [blakeProcess] using hh
  | cons b rest ih =>
      intro h msgLen offset hh
      cases rest with
      | nil => simp [blakeProcess, blakeCompress_length]
      | cons c cs => simpa [blakeProcess] using ih _ _ _ (blakeCompress_length _ _ _ _)

/-- A BLAKE2b-256 digest always has 32 bytes. -/
theorem blake2b256_length (msg : List Nat) : (blake2b256 msg).length = 32 := by
  unfold blake2b256
  rw [length_flatMap_bytesOfWordLE, List.length_take,
    blakeProcess_length _ _ _ _ (by simp [blakeIV])]
  decide

/-- A BLAKE2b-256 digest is never the empty byte string. -/
theorem blake2b256_ne_nil (msg : List Nat) : blake2b256 msg ≠ [] := by
  intro h
  have h32 := blake2b256_length msg
  rw [h] at h32
  simp at h32

/-- A peer whose `Id` field is empty always fails the admission check. -/
theorem isPeerValid_nilId_false (c1 : Nat) (a : String) (pk : List Nat) :
    IsPeerValid c1 ⟨a, pk, []⟩ = false := by
  have hne : ([] : List Nat) ≠ blake2b256 pk := fun h => blake2b256_ne_nil pk h.symm
  simp [IsPeerValid, hne]
  exact fun _ => blake2b256_ne_nil pk

/-- Folding append-singleton rebuilds the list. -/
theorem foldl_append_singleton (l acc : List α) :
    l.foldl (fun acc x => acc ++ [x]) acc = acc ++ l := by
  induction l generalizing acc with
  | nil => simp
  | cons x xs ih => simp [List.foldl_cons, ih]

/-- C1 (confirmed): on any received message, when admission enforcement is on
and the sender fails the validity check, `Receive` returns the invalid-peer
error and leaves the plugin — its routing table included — untouched; in
every other case the routing table of the result is obtained by first
updating with the sender's identity (followed by zero or more further
updates, which occur only in the `Pong` branch), regardless of the message
kind. -/
theorem claim_C1_admission (c1 : Nat) (state : Plugin) (sender : ID)
    (msg : Message) (fn : List ID) :
    (state.EnforceSkademliaNodeIDs = true → IsPeerValid c1 sender = false →
        state.Receive c1 sender msg fn = (state, some invalidPeerErr, [])) ∧
    (state.EnforceSkademliaNodeIDs = false ∨ IsPeerValid c1 sender = true →
        ∃ ps : List ID, (state.Receive c1 sender msg fn).1.Routes =
          ps.foldl RoutingTable.Update (state.Routes.Update sender)) := by
  constructor
  · intro he hv
    simp [Plugin.Receive, he, hv]
  · intro h
    have hc : (state.EnforceSkademliaNodeIDs && !IsPeerValid c1 sender) = false := by
      rcases h with h | h <;> simp [h]
    cases msg with
    | Ping =>
        by_cases hp : state.DisablePing <;>
          exact ⟨[], by simp [Plugin.Receive, hc, hp]⟩
    | Pong =>
        by_cases hp : state.DisablePong
        · exact ⟨[], by simp [Plugin.Receive, hc, hp]⟩
        · exact ⟨fn, by simp [Plugin.Receive, hc, hp]⟩
    | LookupNodeRequest target =>
        by_cases hp : state.DisableLookup <;>
          exact ⟨[], by simp [Plugin.Receive, hc, hp]⟩
    | LookupNodeResponse peers =>
        exact ⟨[], by simp [Plugin.Receive, hc]⟩

/-- Witness for C1: a plugin with enforcement on rejects a concrete invalid
sender untouched, and with enforcement off a concrete `Ping` sender is folded
into the routing table first. -/
theorem claim_C1_witness :
    (wPluginEnforce.EnforceSkademliaNodeIDs = true ∧ IsPeerValid 8 wBadSender = false ∧
      wPluginEnforce.Receive 8 wBadSender .Ping [] = (wPluginEnforce, some invalidPeerErr, [])) ∧
    ((wPluginOpen.EnforceSkademliaNodeIDs = false ∨ IsPeerValid 8 wSender = true) ∧
      ∃ ps : List ID, (wPluginOpen.Receive 8 wSender .Ping []).1.Routes =
        ps.foldl RoutingTable.Update (wPluginOpen.Routes.Update wSender)) :=
  ⟨⟨rfl, isPeerValid_nilId_false 8 "bad:1" [],
    (claim_C1_admission 8 wPluginEnforce wBadSender .Ping []).1 rfl
      (isPeerValid_nilId_false 8 "bad:1" [])⟩,
   ⟨Or.inl rfl,
    (claim_C1_admission 8 wPluginOpen wSender .Ping []).2 (Or.inl rfl)⟩⟩

/-- C2 (confirmed): with lookup enabled and the sender admitted, `Receive` on
`LookupNodeRequest(target)` replies on the inbound connection with a
`LookupNodeResponse` whose peer list is exactly
`FindClosestPeers(target, BucketSize)` of the routing table (after the
sender update that every message performs first), in the same order. -/
theorem claim_C2_lookupReply (c1 : Nat) (state : Plugin) (sender target : ID)
    (fn : List ID)
    (hadm : state.EnforceSkademliaNodeIDs = false ∨ IsPeerValid c1 sender = true)
    (hflag : state.DisableLookup = false) :
    state.Receive c1 sender (.LookupNodeRequest target) fn =
      ({ state with Routes := state.Routes.Update sender }, none,
       [.reply (.LookupNodeResponse
          ((state.Routes.Update sender).FindClosestPeers target BucketSize))]) := by
  have hc : (state.EnforceSkademliaNodeIDs && !IsPeerValid c1 sender) = false := by
    rcases hadm with h | h <;> simp [h]
  simp [Plugin.Receive, hc, hflag, foldl_append_singleton]

/-- Witness for C2 at a concrete plugin, sender and target. -/
theorem claim_C2_witness :
    (wPluginOpen.EnforceSkademliaNodeIDs = false ∨ IsPeerValid 8 wSender = true) ∧
    wPluginOpen.DisableLookup = false ∧
    wPluginOpen.Receive 8 wSender (.LookupNodeRequest wTarget) [] =
      ({ wPluginOpen with Routes := wPluginOpen.Routes.Update wSender }, none,
       [.reply (.LookupNodeResponse
          ((wPluginOpen.Routes.Update wSender).FindClosestPeers wTarget BucketSize))]) :=
  ⟨Or.inl rfl, rfl, claim_C2_lookupReply 8 wPluginOpen wSender wTarget [] (Or.inl rfl) rfl⟩

/-- C4 (confirmed): with the sender admitted, a set kind-specific flag makes
`Receive` skip the kind's action — no `Pong` reply, no `FindNode`-driven
updates (the result is the same for every oracle value `fn`), no
`LookupNodeResponse` reply — while still updating the routing table with the
sender and returning no error. -/
theorem claim_C4_disabledFlags (c1 : Nat) (state : Plugin) (sender target : ID)
    (fn : List ID)
    (hadm : state.EnforceSkademliaNodeIDs = false ∨ IsPeerValid c1 sender = true) :
    (state.DisablePing = true → state.Receive c1 sender .Ping fn =
        ({ state with Routes := state.Routes.Update sender }, none, [])) ∧
    (state.DisablePong = true → state.Receive c1 sender .Pong fn =
        ({ state with Routes := state.Routes.Update sender }, none, [])) ∧
    (state.DisableLookup = true → state.Receive c1 sender (.LookupNodeRequest target) fn =
        ({ state with Routes := state.Routes.Update sender }, none, [])) := by
  have hc : (state.EnforceSkademliaNodeIDs && !IsPeerValid c1 sender) = false := by
    rcases hadm with h | h <;> simp [h]
  refine ⟨fun hp => ?_, fun hp => ?_, fun hp => ?_⟩ <;> simp [Plugin.Receive, hc, hp]

/-- Witness for C4: a concrete plugin with all three flags set skips each
action but still updates the table with the sender, for every message kind. -/
theorem claim_C4_witness :
    wPluginFlags.Receive 8 wSender .Ping [wTarget] =
      ({ wPluginFlags with Routes := wPluginFlags.Routes.Update wSender }, none, []) ∧
    wPluginFlags.Receive 8 wSender .Pong [wTarget] =
      ({ wPluginFlags with Routes := wPluginFlags.Routes.Update wSender }, none, []) ∧
    wPluginFlags.Receive 8 wSender (.LookupNodeRequest wTarget) [wTarget] =
      ({ wPluginFlags with Routes := wPluginFlags.Routes.Update wSender }, none, []) :=
  ⟨(claim_C4_disabledFlags 8 wPluginFlags wSender wTarget [wTarget] (Or.inl rfl)).1 rfl,
   (claim_C4_disabledFlags 8 wPluginFlags wSender wTarget [wTarget] (Or.inl rfl)).2.1 rfl,
   (claim_C4_disabledFlags 8 wPluginFlags wSender wTarget [wTarget] (Or.inl rfl)).2.2 rfl⟩

/-- C5 (amended): `isValidKeyPair(pk, C1)` returns true iff the number of
leading zero bits of `hash(hash(pk))` — the hash of the derived node id — is
at least `C1`; on the test vectors it accepts the first key at `C1 = 8`,
rejects it at `C1 = 16`, and accepts the second key at `C1 = 8`, `10`
and `16`. -/
theorem claim_C5_staticPuzzle :
    (∀ pk c1, isValidKeyPair pk c1 = true ↔
        c1 ≤ leadingZeroBits (blake2b256 (blake2b256 pk))) ∧
    isValidKeyPair testPublicKey1 8 = true ∧
    isValidKeyPair testPublicKey1 16 = false ∧
    isValidKeyPair testPublicKey2 8 = true ∧
    isValidKeyPair testPublicKey2 10 = true ∧
    isValidKeyPair testPublicKey2 16 = true := by
  refine ⟨fun pk c1 => by simp [isValidKeyPair], ?_, ?_, ?_, ?_, ?_⟩ <;>
    simp [isValidKeyPair, lzDoubleHash_testKey1, lzDoubleHash_testKey2]

/-- Two booleans agreeing as propositions are equal. -/
theorem bool_eq_of_iff {x y : Bool} (h : x = true ↔ y = true) : x = y := by
  cases x <;> cases y <;> simp_all

/-- After `RemovePeer`, the removed peer is reported absent. -/
theorem peerExists_removePeer_self (t : RoutingTable) (peer : ID) :
    (t.RemovePeer peer).PeerExists peer = false := by
  rw [← Bool.not_eq_true]
  simp only [RoutingTable.RemovePeer, RoutingTable.PeerExists, List.any_eq_true,
    List.mem_map]
  rintro ⟨b, ⟨b₀, _, rfl⟩, q, hq, he⟩
  rw [List.mem_filter] at hq
  have hcond := hq.2
  simp at hcond he
  exact hcond he

/-- `RemovePeer` does not change whether any other id is present. -/
theorem peerExists_removePeer_other (t : RoutingTable) (peer q : ID)
    (h : q.Id ≠ peer.Id) :
    (t.RemovePeer peer).PeerExists q = t.PeerExists q := by
  apply bool_eq_of_iff
  simp only [RoutingTable.RemovePeer, RoutingTable.PeerExists, List.any_eq_true,
    List.mem_map]
  constructor
  · rintro ⟨b, ⟨b₀, hb₀, rfl⟩, r, hr, he⟩
    rw [List.mem_filter] at hr
    exact ⟨b₀, hb₀, r, hr.1, he⟩
  · rintro ⟨b, hb, r, hr, he⟩
    refine ⟨b.filter (fun r => !(r.Id == peer.Id)), ⟨b, hb, rfl⟩, r, ?_, he⟩
    simp at he
    exact List.mem_filter.mpr ⟨hr, by simp [he, h]⟩

/-- Removing an absent peer leaves the table unchanged. -/
theorem removePeer_absent (t : RoutingTable) (peer : ID)
    (h : t.PeerExists peer = false) : t.RemovePeer peer = t := by
  have h' : ∀ b ∈ t.buckets, ∀ q ∈ b, ¬(q.Id = peer.Id) := by
    intro b hb q hq he
    rw [← Bool.not_eq_true] at h
    exact h (List.any_eq_true.mpr ⟨b, hb, List.any_eq_true.mpr ⟨q, hq, by simp [he]⟩⟩)
  have hmap : t.buckets.map (fun b => b.filter (fun q => !(q.Id == peer.Id)))
      = t.buckets :=
    calc t.buckets.map (fun b => b.filter (fun q => !(q.Id == peer.Id)))
        = t.buckets.map id :=
          List.map_congr_left (fun b hb =>
            List.filter_eq_self.mpr (fun q hq => by simp [h' b hb q hq]))
      _ = t.buckets := List.map_id _
  cases t with
  | mk self buckets =>
      simp only [RoutingTable.RemovePeer]
      rw [show ({ self := self, buckets := buckets } : RoutingTable).buckets
            = buckets from rfl] at hmap
      simp [hmap]

/-- C9 (confirmed): on a disconnect callback with a non-nil client id, the
peer ends up absent from the routing table, the removal happens exactly when
the peer was present (an absent peer leaves the plugin untouched), the `self`
identity is preserved, every bucket keeps its other entries in order, and no
other peer's membership changes. -/
theorem claim_C9_peerDisconnect (state : Plugin) (peer : ID) :
    (state.PeerDisconnect (some peer)).Routes.PeerExists peer = false ∧
    (state.PeerDisconnect (some peer)).Routes.self = state.Routes.self ∧
    (state.PeerDisconnect (some peer)).Routes.buckets =
      state.Routes.buckets.map (fun b => b.filter (fun q => !(q.Id == peer.Id))) ∧
    (state.Routes.PeerExists peer = false → state.PeerDisconnect (some peer) = state) ∧
    (∀ q : ID, q.Id ≠ peer.Id →
      (state.PeerDisconnect (some peer)).Routes.PeerExists q =
        state.Routes.PeerExists q) := by
  by_cases hex : state.Routes.PeerExists peer
  · refine ⟨?_, ?_, ?_, ?_, ?_⟩
    · simp [Plugin.PeerDisconnect, hex, peerExists_removePeer_self]
    · simp [Plugin.PeerDisconnect, hex, RoutingTable.RemovePeer]
    · simp [Plugin.PeerDisconnect, hex, RoutingTable.RemovePeer]
    · intro habs; rw [hex] at habs; cases habs
    · intro q hq
      simp [Plugin.PeerDisconnect, hex, peerExists_removePeer_other _ _ _ hq]
  · rw [Bool.not_eq_true] at hex
    have habs := removePeer_absent state.Routes peer hex
    refine ⟨?_, ?_, ?_, ?_, ?_⟩
    · simpa [Plugin.PeerDisconnect, hex] using hex
    · simp [Plugin.PeerDisconnect, hex]
    · simp only [Plugin.PeerDisconnect, hex, if_false, Bool.false_eq_true]
      exact (congrArg RoutingTable.buckets habs).symm
    · intro _; simp [Plugin.PeerDisconnect, hex]
    · intro q _; simp [Plugin.PeerDisconnect, hex]

/-- Witness for C9: removing a concrete peer from a concrete plugin does not
change the membership of a different peer. -/
theorem claim_C9_witness :
    wTarget.Id ≠ wSender.Id ∧
    (wPluginOpen.PeerDisconnect (some wSender)).Routes.PeerExists wTarget =
      wPluginOpen.Routes.PeerExists wTarget :=
  ⟨by decide, (claim_C9_peerDisconnect wPluginOpen wSender).2.2.2.2 wTarget (by decide)⟩

/-- C7 (confirmed): `EstablishActively` fails without invoking the `Dialer`
whenever the id→address map has no entry for the remote id, propagating the
not-found error to the caller; when an entry exists it dials exactly the
mapped address. -/
theorem claim_C7_establishActively (m : List (List Nat × String)) (remote : List Nat)
    (dialer : String → Except String Unit) :
    ((∀ kv ∈ m, kv.1 ≠ remote) →
        EstablishActively m remote dialer = (.error "not found", [])) ∧
    (∀ addr, lookupAddressByID m remote = .ok addr →
        (EstablishActively m remote dialer).2 = [addr]) := by
  constructor
  · intro h
    have hfind : m.find? (fun kv => kv.1 == remote) = none := by
      rw [List.find?_eq_none]
      intro kv hkv
      simp [h kv hkv]
    simp [EstablishActively, lookupAddressByID, hfind]
  · intro addr h
    simp only [EstablishActively, h]
    cases dialer addr <;> simp

/-- Witness for C7: with the concrete one-entry map, looking up an unknown id
fails without a dial, and looking up the known id dials its address. -/
theorem claim_C7_witness :
    ((∀ kv ∈ wMap, kv.1 ≠ [2]) ∧
      EstablishActively wMap [2] wDialOk = (.error "not found", [])) ∧
    (lookupAddressByID wMap [1] = .ok "addr:1" ∧
      (EstablishActively wMap [1] wDialOk).2 = ["addr:1"]) :=
  ⟨⟨by decide, (claim_C7_establishActively wMap [2] wDialOk).1 (by decide)⟩,
   ⟨rfl, (claim_C7_establishActively wMap [1] wDialOk).2 "addr:1" rfl⟩⟩

/-- C8 (confirmed): over every finite trace of loop iterations, the accept
loop closes its output channel exactly when some iteration observes the
cancellation signal — an `Accept` or adapter-creation failure merely skips to
the next iteration and can never terminate the loop or close the channel. -/
theorem claim_C8_acceptLoop :
    (∀ trace : List AcceptEvent,
      (acceptLoop trace).2 = true ↔ ∃ ev ∈ trace, ev.cancelled = true) ∧
    (∀ (ev : AcceptEvent) (rest : List AcceptEvent), ev.cancelled = false →
      (∃ e, ev.accept = Except.error e) ∨ ev.adapterOk = false →
      acceptLoop (ev :: rest) = acceptLoop rest) := by
  constructor
  · intro trace
    induction trace with
    | nil => simp [acceptLoop]
    | cons ev rest ih =>
        by_cases hc : ev.cancelled
        · simp [acceptLoop, hc]
        · cases ha : ev.accept with
          | error e => simp [acceptLoop, hc, ha, ih]
          | ok c =>
              by_cases hok : ev.adapterOk <;> simp [acceptLoop, hc, ha, hok, ih]
  · rintro ev rest hc (⟨e, he⟩ | hok)
    · simp [acceptLoop, hc, he]
    · cases ha : ev.accept <;> simp [acceptLoop, hc, ha, hok]

/-- Witness for C8: an iteration that observes an `Accept` error continues
into the rest of the trace. -/
theorem claim_C8_witness :
    wAcceptErr.cancelled = false ∧
    (∃ e, wAcceptErr.accept = Except.error e) ∧
    acceptLoop [wAcceptErr] = acceptLoop [] :=
  ⟨rfl, ⟨"boom", rfl⟩,
   claim_C8_acceptLoop.2 wAcceptErr [] rfl (Or.inl ⟨"boom", rfl⟩)⟩

/-- Storing a binding and then loading some id: the stored key answers with
the new address, other keys are unaffected. -/
theorem lookup_mapStore (m : List (List Nat × String)) (k : List Nat) (a : String)
    (id : List Nat) :
    lookupAddressByID (mapStore m k a) id =
      if k == id then .ok a else lookupAddressByID m id := by
  induction m with
  | nil =>
      by_cases h : k == id <;> simp [mapStore, lookupAddressByID, List.find?, h]
  | cons kv rest ih =>
      by_cases hk : kv.1 == k
      · have hkeq : kv.1 = k := by simpa using hk
        by_cases hid : k == id <;>
          simp [mapStore, hk, lookupAddressByID, List.find?, hid, hkeq]
      · by_cases hkvid : kv.1 == id
        · have h1 : kv.1 = id := by simpa using hkvid
          have h2 : (k == id) = false := by
            rw [beq_eq_false_iff_ne]
            intro he
            rw [he, ← h1] at hk
            simp at hk
          simp [mapStore, hk, lookupAddressByID, List.find?, hkvid, h2]
        · have := ih
          simp only [lookupAddressByID] at this
          simp [mapStore, hk, lookupAddressByID, List.find?, hkvid, this]

/-- Folding stores over the map resolves a lookup to the last stored address
for that id, falling back to the initial map. -/
theorem lookup_foldl_store (ops : List (List Nat × String)) :
    ∀ (m : List (List Nat × String)) (id : List Nat),
      lookupAddressByID (ops.foldl (fun m op => MapIDToAddress m op.1 op.2) m) id =
        match lastStore? ops id with
        | some a => .ok a
        | none => lookupAddressByID m id := by
  induction ops with
  | nil => intro m id; simp [lastStore?]
  | cons op rest ih =>
      intro m id
      obtain ⟨k, a⟩ := op
      simp only [List.foldl_cons]
      rw [ih]
      cases hls : lastStore? rest id with
      | some b => simp [lastStore?, hls]
      | none =>
          simp only [lastStore?, hls, MapIDToAddress, lookup_mapStore]
          by_cases h : k == id <;> simp [h]

/-- `GetConnectionIDs` lists the keys of the map in order. -/
theorem getConnectionIDs_eq_keys (m : List (List Nat × String)) :
    GetConnectionIDs m = m.map Prod.fst := by
  suffices h : ∀ (m : List (List Nat × String)) (acc : List (List Nat)),
      m.foldl (fun results kv => results ++ [kv.1]) acc = acc ++ m.map Prod.fst by
    simpa [GetConnectionIDs] using h m []
  intro m
  induction m with
  | nil => simp
  | cons kv rest ih => intro acc; simp [ih, List.append_assoc]

/-- A key is in the map after folding stores iff it was one of the stored ids
or was in the initial map. -/
theorem mem_keys_foldl_store (ops : List (List Nat × String)) :
    ∀ (m : List (List Nat × String)) (id : List Nat),
      (id ∈ (ops.foldl (fun m op => MapIDToAddress m op.1 op.2) m).map Prod.fst ↔
        (∃ a, (id, a) ∈ ops) ∨ id ∈ m.map Prod.fst) := by
  have hstore : ∀ (m : List (List Nat × String)) (k : List Nat) (a : String)
      (id : List Nat),
      (id ∈ (mapStore m k a).map Prod.fst ↔ id = k ∨ id ∈ m.map Prod.fst) := by
    intro m k a id
    induction m with
    | nil => simp [mapStore]
    | cons kv rest ih =>
        by_cases hk : kv.1 == k
        · have hkeq : kv.1 = k := by simpa using hk
          simp [mapStore, hk, hkeq]
        · simp [mapStore, hk, ih]
          tauto
  intro m id
  induction ops generalizing m with
  | nil => simp
  | cons op rest ih =>
      obtain ⟨k, a⟩ := op
      simp only [List.foldl_cons, MapIDToAddress] at *
      rw [ih, hstore]
      constructor
      · rintro (⟨b, hb⟩ | h | h)
        · exact Or.inl ⟨b, List.mem_cons_of_mem _ hb⟩
        · exact Or.inl ⟨a, by simp [h]⟩
        · exact Or.inr h
      · rintro (⟨b, hb⟩ | h)
        · rcases List.mem_cons.mp hb with hb | hb
          · have : id = k ∧ b = a := by
              constructor <;> [exact congrArg Prod.fst hb; exact congrArg Prod.snd hb]
            exact Or.inr (Or.inl this.1)
          · exact Or.inl ⟨b, hb⟩
        · exact Or.inr (Or.inr h)

/-- C10 (confirmed): storing a binding makes a subsequent lookup of that id
return the stored address; over any sequence of stores starting from the
empty map, a lookup returns the latest address stored for the id and errors
exactly when the id was never stored; and `GetConnectionIDs` contains exactly
the ids stored so far. -/
theorem claim_C10_idAddressMap (ops : List (List Nat × String)) (id : List Nat) :
    (∀ (m : List (List Nat × String)) (addr : String),
        lookupAddressByID (MapIDToAddress m id addr) id = .ok addr) ∧
    (lookupAddressByID (ops.foldl (fun m op => MapIDToAddress m op.1 op.2) []) id =
        match lastStore? ops id with
        | some a => .ok a
        | none => .error "not found") ∧
    (id ∈ GetConnectionIDs (ops.foldl (fun m op => MapIDToAddress m op.1 op.2) []) ↔
        ∃ a, (id, a) ∈ ops) := by
  refine ⟨?_, ?_, ?_⟩
  · intro m addr
    simp [MapIDToAddress, lookup_mapStore]
  · rw [lookup_foldl_store]
    cases lastStore? ops id <;> simp [lookupAddressByID, List.find?]
  · rw [getConnectionIDs_eq_keys, mem_keys_foldl_store]
    simp

/-- Membership in the bubbled list. -/
theorem mem_pvaBubble (revPre : List PubliclyVisibleAddress)
    (x : PubliclyVisibleAddress) :
    ∀ (suf : List PubliclyVisibleAddress) (q : PubliclyVisibleAddress),
      q ∈ pvaBubble revPre x suf ↔ q = x ∨ q ∈ revPre ∨ q ∈ suf := by
  induction revPre with
  | nil => intro suf q; simp [pvaBubble]
  | cons p revPre' ih =>
      intro suf q
      by_cases h : p.count < x.count
      · rw [pvaBubble, if_pos h, ih]
        simp
        tauto
      · rw [pvaBubble, if_neg h]
        simp
        tauto

/-- Bubbling preserves the number of entries. -/
theorem length_pvaBubble (revPre : List PubliclyVisibleAddress)
    (x : PubliclyVisibleAddress) :
    ∀ suf : List PubliclyVisibleAddress,
      (pvaBubble revPre x suf).length = revPre.length + suf.length + 1 := by
  induction revPre with
  | nil => intro suf; simp [pvaBubble]
  | cons p revPre' ih =>
      intro suf
      by_cases h : p.count < x.count
      · rw [pvaBubble, if_pos h, ih]
        simp
        omega
      · rw [pvaBubble, if_neg h]
        simp
        omega

/-- Bubbling an entry strictly greater than the whole suffix through a sorted
context yields a sorted list. -/
theorem pairwise_pvaBubble (revPre : List PubliclyVisibleAddress)
    (x : PubliclyVisibleAddress) :
    ∀ suf : List PubliclyVisibleAddress,
      List.Pairwise (fun a b => b.count ≤ a.count) (revPre.reverse ++ suf) →
      (∀ q ∈ suf, q.count < x.count) →
      List.Pairwise (fun a b => b.count ≤ a.count) (pvaBubble revPre x suf) := by
  induction revPre with
  | nil =>
      intro suf hs hlt
      rw [pvaBubble]
      simp only [List.reverse_nil, List.nil_append] at hs
      exact List.pairwise_cons.mpr ⟨fun q hq => Nat.le_of_lt (hlt q hq), hs⟩
  | cons p revPre' ih =>
      intro suf hs hlt
      have hsplit : (p :: revPre').reverse ++ suf = revPre'.reverse ++ (p :: suf) := by
        simp
      by_cases h : p.count < x.count
      · rw [pvaBubble, if_pos h]
        refine ih (p :: suf) ?_ ?_
        · rw [← hsplit]; exact hs
        · intro q hq
          rcases List.mem_cons.mp hq with rfl | hq
          · exact h
          · exact hlt q hq
      · rw [pvaBubble, if_neg h]
        have hx : x.count ≤ p.count := Nat.le_of_not_lt h
        rw [List.pairwise_append] at hs
        obtain ⟨hA, hB, hAB⟩ := hs
        have hArev : List.Pairwise (fun a b => b.count ≤ a.count)
            (revPre'.reverse ++ [p]) := by simpa using hA
        rw [List.pairwise_append] at hArev
        obtain ⟨hA', _, hA'p⟩ := hArev
        rw [List.pairwise_append]
        refine ⟨hA, ?_, ?_⟩
        · exact List.pairwise_cons.mpr ⟨fun q hq => Nat.le_of_lt (hlt q hq), hB⟩
        · intro a ha b hb
          rcases List.mem_cons.mp hb with rfl | hb
          · -- `b = x`: every element of `(p :: revPre').reverse` dominates `p ≥ x`
            have ha' : a ∈ revPre'.reverse ++ [p] := by simpa using ha
            rcases List.mem_append.mp ha' with ha' | ha'
            · exact Nat.le_trans hx (hA'p a ha' p (by simp))
            · rw [List.mem_singleton.mp ha']; exact hx
          · exact hAB a ha b hb

/-- Characterization of the search loop when the address is absent. -/
theorem pvaScan_eq_none (address : String) :
    ∀ (l revPre : List PubliclyVisibleAddress),
      (∀ p ∈ l, p.address ≠ address) → pvaScan address revPre l = none := by
  intro l
  induction l with
  | nil => intro revPre _; rfl
  | cons p rest ih =>
      intro revPre hne
      have hp : (p.address == address) = false :=
        beq_eq_false_iff_ne.mpr (hne p (by simp))
      rw [pvaScan, if_neg (by simp [hp])]
      exact ih _ (fun q hq => hne q (by simp [hq]))

/-- A successful search-and-increment keeps the tally sorted, keeps its
length, and keeps every count positive. -/
theorem pvaScan_some_wf (address : String) :
    ∀ (l revPre l' : List PubliclyVisibleAddress),
      pvaScan address revPre l = some l' →
      List.Pairwise (fun a b => b.count ≤ a.count) (revPre.reverse ++ l) →
      (∀ q ∈ revPre, 1 ≤ q.count) → (∀ q ∈ l, 1 ≤ q.count) →
      List.Pairwise (fun a b => b.count ≤ a.count) l' ∧
      l'.length = revPre.length + l.length ∧
      ∀ q ∈ l', 1 ≤ q.count := by
  intro l
  induction l with
  | nil => intro revPre l' hscan; cases hscan
  | cons p rest ih =>
      intro revPre l' hscan hs hc1 hc2
      by_cases hm : p.address == address
      · rw [pvaScan, if_pos hm] at hscan
        injection hscan with hl'
        subst hl'
        have hsub : List.Pairwise (fun a b => b.count ≤ a.count)
            (revPre.reverse ++ rest) := by
          refine List.Pairwise.sublist ?_ hs
          exact List.Sublist.append_left (List.sublist_cons_self p rest) _
        have hrest : ∀ q ∈ rest, q.count < p.count + 1 := by
          rw [List.pairwise_append] at hs
          intro q hq
          exact Nat.lt_succ_of_le (List.rel_of_pairwise_cons hs.2.1 hq)
        refine ⟨pairwise_pvaBubble revPre _ rest hsub hrest, ?_, ?_⟩
        · rw [length_pvaBubble]
          simp
          omega
        · intro q hq
          rcases (mem_pvaBubble revPre _ rest q).mp hq with rfl | hq | hq
          · simp
          · exact hc1 q hq
          · exact hc2 q (by simp [hq])
      · rw [pvaScan, if_neg (by simpa using hm)] at hscan
        have hs' : List.Pairwise (fun a b => b.count ≤ a.count)
            ((p :: revPre).reverse ++ rest) := by
          simpa [List.append_assoc] using hs
        have := ih (p :: revPre) l' hscan hs'
          (fun q hq => by
            rcases List.mem_cons.mp hq with rfl | hq
            · exact hc2 q (by simp)
            · exact hc1 q hq)
          (fun q hq => hc2 q (by simp [hq]))
        refine ⟨this.1, ?_, this.2.2⟩
        rw [this.2.1]
        simp
        omega

/-- C3 (confirmed): `updatePubliclyVisibleAddress` preserves the tally's
well-formedness — at most 8 entries, counts sorted in non-increasing order,
all counts positive — and when a previously unseen address arrives while the
list is full (8 entries), the last entry is evicted and the new address is
appended with count 1, so the most recent report always occupies a slot. -/
theorem claim_C3_addressTally (l : List PubliclyVisibleAddress) (address : String)
    (h : PVAWellFormed l) :
    PVAWellFormed (updatePubliclyVisibleAddress l address) ∧
    ((∀ p ∈ l, p.address ≠ address) → l.length = 8 →
      updatePubliclyVisibleAddress l address =
        l.take 7 ++ [{ address := address, count := 1 }]) := by
  obtain ⟨hlen, hsort, hcnt⟩ := h
  constructor
  · rw [updatePubliclyVisibleAddress]
    cases hscan : pvaScan address [] l with
    | some l' =>
        have hwf := pvaScan_some_wf address l [] l' hscan (by simpa using hsort)
          (by simp) hcnt
        refine ⟨?_, hwf.1, hwf.2.2⟩
        rw [hwf.2.1]
        simpa using hlen
    | none =>
        by_cases hfull : l.length > MaxPublicVisibleAddressCandidates - 1
        · rw [if_pos hfull]
          refine ⟨?_, ?_, ?_⟩
          · simp [MaxPublicVisibleAddressCandidates]
          · rw [List.pairwise_append]
            refine ⟨List.Pairwise.sublist (List.take_sublist _ _) hsort, by simp, ?_⟩
            intro a ha b hb
            rw [List.mem_singleton.mp hb]
            exact hcnt a (List.mem_of_mem_take ha)
          · intro q hq
            rcases List.mem_append.mp hq with hq | hq
            · exact hcnt q (List.mem_of_mem_take hq)
            · rw [List.mem_singleton.mp hq]
        · rw [if_neg hfull]
          refine ⟨?_, ?_, ?_⟩
          · simp only [List.length_append, List.length_singleton]
            simp [MaxPublicVisibleAddressCandidates] at hfull ⊢
            omega
          · rw [List.pairwise_append]
            refine ⟨hsort, by simp, ?_⟩
            intro a ha b hb
            rw [List.mem_singleton.mp hb]
            exact hcnt a ha
          · intro q hq
            rcases List.mem_append.mp hq with hq | hq
            · exact hcnt q hq
            · rw [List.mem_singleton.mp hq]
  · intro hnot h8
    rw [updatePubliclyVisibleAddress, pvaScan_eq_none address l [] hnot,
      if_pos (by simp [h8, MaxPublicVisibleAddressCandidates])]
    simp [MaxPublicVisibleAddressCandidates]

/-- Witness for C3: the concrete two-entry tally is well formed and stays so
after reporting a fresh address. -/
theorem claim_C3_witness :
    PVAWellFormed wPVA ∧ PVAWellFormed (updatePubliclyVisibleAddress wPVA "c") :=
  ⟨by constructor <;> simp [wPVA, MaxPublicVisibleAddressCandidates],
   (claim_C3_addressTally wPVA "c"
      (by constructor <;> simp [wPVA, MaxPublicVisibleAddressCandidates])).1⟩

end Noise
